import Mathlib

/-!
# Verification of the gitstatus orchestrator

A shallow embedding of `src/gitstatus.cc` (the request/response orchestrator of
the gitstatus daemon).  The provider library (libgit2) and the helper headers
(`repo.h`, `response.h`, `git.h`, ...) are not part of the source tree; where a
behaviour of theirs decides a property, it is modelled from the specification
and the corresponding definition's doc comment says so explicitly.

The daemon reads one request per line (`{id, working_directory, diff_flag}`),
queries the repository, and writes one tab-delimited, newline-terminated
response record per successfully dispatched request.
-/

namespace Gitstatus

/-- A request parsed from one input line: `{id, working_directory, diff_flag}`
(`Request` consumed by `ProcessRequest`, `src/gitstatus.cc:45`). -/
structure Request where
  id : String
  dir : String
  diff : Bool

/-- The configuration fields of `Options` that the orchestrator fragment uses:
the per-category bounds named in the comments of `src/gitstatus.cc:116-122`
(`opts.max_num_staged` etc.), the index-too-large threshold, and the
ahead/behind traversal maxima of the specification. -/
structure Options where
  max_num_staged : Nat
  max_num_unstaged : Nat
  max_num_conflicted : Nat
  max_num_untracked : Nat
  max_index_size : Nat
  max_commits_ahead : Nat
  max_commits_behind : Nat

/-- A git object id (`git_oid`): 20 raw bytes. -/
structure Oid where
  bytes : List Nat
  len_eq : bytes.length = 20
  lt_256 : ∀ b ∈ bytes, b < 256

/-- Data of the tracking remote of the current branch (`Remote` returned by
`GetRemote`, plus the raw ahead/behind commit counts that `CountRange` would
traverse). -/
structure Upstream where
  branch : String
  name : String
  url : String
  raw_ahead : Nat
  raw_behind : Nat

/-- The observable state of an opened repository, as queried by
`ProcessRequest` through the provider: working directory, head target
(`none` iff the head is unborn), local branch, tracking remote (if any),
repository state/action, raw index counts, stash count and tag at head. -/
structure RepoFacts where
  workdir : String
  head_target : Option Oid
  local_branch : String
  upstream : Option Upstream
  repo_state : String
  index_size : Nat
  raw_staged : Nat
  raw_unstaged : Nat
  raw_conflicted : Nat
  raw_untracked : Nat
  num_stashes : Nat
  tag_name : String

/-- Outcome of `cache.Open(req.dir)` followed by `Head(repo->repo())`
(`src/gitstatus.cc:50-55`): the directory is not a repository, some
per-request failure occurred (null head, thrown exception), or the
repository was opened and its facts are available. -/
inductive OpenResult where
  | notRepo : OpenResult
  | failure : OpenResult
  | ok : RepoFacts → OpenResult

/-- Lowercase hexadecimal digit for a nibble. -/
def hexDigit (n : Nat) : Char := "0123456789abcdef".data.getD n '0'

/-- Two lowercase hex characters per byte, most significant nibble first. -/
def hexBytes : List Nat → List Char
  | [] => []
  | b :: t => hexDigit (b / 16) :: hexDigit (b % 16) :: hexBytes t

/-- Modelled from the spec: `git_oid_tostr_s` (provider library, not under
`src/`) renders a 20-byte object id as its 40 lowercase hexadecimal
characters ("`head_commit` (40 hex chars, or empty for unborn head)"). -/
def oidToHex (oid : Oid) : String := String.mk (hexBytes oid.bytes)

/-- Embedding of `src/gitstatus.cc:77`:
`if (workdir.len > 1 && workdir.ptr[workdir.len - 1] == '/') --workdir.len;`. -/
def stripTrailingSlash (s : String) : String :=
  if s.length > 1 ∧ s.data.getLast? = some '/' then String.mk s.data.dropLast else s

/-- The `head_commit` response field (`src/gitstatus.cc:81`):
`head_target ? git_oid_tostr_s(head_target) : ""`. -/
def headCommitField (facts : RepoFacts) : String :=
  match facts.head_target with
  | some oid => oidToHex oid
  | none => ""

/-- Counters returned by `repo->GetIndexStats` (`src/gitstatus.cc:112`). -/
structure IndexStats where
  index_size : Nat
  num_staged : Nat
  num_unstaged : Nat
  num_conflicted : Nat
  num_untracked : Nat

/-- Modelled from the spec: `Repo::GetIndexStats` (in `repo.h`, not under
`src/`).  Counters saturate at their configured bounds ("At most
`opts.max_num_staged`", `src/gitstatus.cc:116-122`); when the index exceeds
the too-large threshold, the unstaged pass is skipped and unstaged,
conflicted and untracked are reported as 0 (spec §4.5, and "0 if index is
too large" in `src/gitstatus.cc:118-122`). -/
def GetIndexStats (opts : Options) (facts : RepoFacts) : IndexStats :=
  if facts.index_size > opts.max_index_size then
    { index_size := facts.index_size
      num_staged := min facts.raw_staged opts.max_num_staged
      num_unstaged := 0
      num_conflicted := 0
      num_untracked := 0 }
  else
    { index_size := facts.index_size
      num_staged := min facts.raw_staged opts.max_num_staged
      num_unstaged := min facts.raw_unstaged opts.max_num_unstaged
      num_conflicted := min facts.raw_conflicted opts.max_num_conflicted
      num_untracked := min facts.raw_untracked opts.max_num_untracked }

/-- Modelled from the spec: `CountRange(repo, "<upstream>..HEAD")`
(`src/gitstatus.cc:135`; `git.h` is not under `src/`): the number of commits
ahead of upstream, a graph walk "bounded by a configurable maximum"
(spec §4.7, §8). -/
def CountAhead (opts : Options) (u : Upstream) : Nat :=
  min u.raw_ahead opts.max_commits_ahead

/-- Modelled from the spec: `CountRange(repo, "HEAD..<upstream>")`
(`src/gitstatus.cc:138`): the number of commits behind upstream, bounded by
the configured maximum. -/
def CountBehind (opts : Options) (u : Upstream) : Nat :=
  min u.raw_behind opts.max_commits_behind

/-- Modelled from the spec: the `ResponseWriter` (in `response.h`, not under
`src/`) emits a record that carries only the request id when `ProcessRequest`
returns before calling `Dump` ("per-request failures → emit a response
containing only the `id`"). -/
def emitOnlyId (req : Request) : List String := [req.id]

/-- Modelled from the spec: the response writer frames a record as its fields
tab-delimited and newline-terminated (spec §6). -/
def renderResponse (fields : List String) : String :=
  String.intercalate "\t" fields ++ "\n"

/-- Shallow embedding of `ProcessRequest` (`src/gitstatus.cc:45-152`),
returning the list of fields of the emitted response record.  The provider
calls are abstracted into `openRepo` (the repository cache plus `Head`) and
the `RepoFacts` it yields; the order of the emitted fields follows the
sequence of `resp.Print` calls in the source. -/
def ProcessRequest (opts : Options) (openRepo : String → OpenResult)
    (req : Request) : List String :=
  match openRepo req.dir with
  | .notRepo => emitOnlyId req
  | .failure => emitOnlyId req
  | .ok facts =>
    if facts.workdir = "" then emitOnlyId req
    else
      [req.id,
       stripTrailingSlash facts.workdir,
       headCommitField facts,
       facts.local_branch,
       (match facts.upstream with | some u => u.branch | none => ""),
       (match facts.upstream with | some u => u.name | none => ""),
       (match facts.upstream with | some u => u.url | none => ""),
       facts.repo_state]
      ++ (if req.diff then
            [toString (GetIndexStats opts facts).index_size,
             toString (GetIndexStats opts facts).num_staged,
             toString (GetIndexStats opts facts).num_unstaged,
             toString (GetIndexStats opts facts).num_conflicted,
             toString (GetIndexStats opts facts).num_untracked]
          else ["0", "0", "0", "0", "0"])
      ++ (match facts.upstream with
          | some u => [toString (CountAhead opts u), toString (CountBehind opts u)]
          | none => ["0", "0"])
      ++ [toString facts.num_stashes, facts.tag_name]

/-- One line read by the request loop: either a malformed line
(`reader.ReadRequest()` throws, `src/gitstatus.cc:208`) or a parsed request. -/
inductive InputLine where
  | invalid : InputLine
  | valid : Request → InputLine

/-- The request loop of `GitStatus` (`src/gitstatus.cc:206-218`) over a finite
input stream: a malformed line is caught by the outer `try` and skipped; a
parsed request is dispatched to `ProcessRequest` (whose own failures are
caught by the inner `try`) and the loop continues. -/
def RequestLoop (opts : Options) (openRepo : String → OpenResult) :
    List InputLine → List (List String)
  | [] => []
  | .invalid :: rest => RequestLoop opts openRepo rest
  | .valid req :: rest =>
      ProcessRequest opts openRepo req :: RequestLoop opts openRepo rest

/-- Helper: on the success path (`openRepo` yields facts, non-empty workdir),
`ProcessRequest` emits exactly this record. -/
lemma ProcessRequest_ok_eq (opts : Options) (openRepo : String → OpenResult)
    (req : Request) (facts : RepoFacts)
    (hp : openRepo req.dir = .ok facts) (hw : facts.workdir ≠ "") :
    ProcessRequest opts openRepo req =
      [req.id,
       stripTrailingSlash facts.workdir,
       headCommitField facts,
       facts.local_branch,
       (match facts.upstream with | some u => u.branch | none => ""),
       (match facts.upstream with | some u => u.name | none => ""),
       (match facts.upstream with | some u => u.url | none => ""),
       facts.repo_state,
       (if req.diff then toString (GetIndexStats opts facts).index_size else "0"),
       (if req.diff then toString (GetIndexStats opts facts).num_staged else "0"),
       (if req.diff then toString (GetIndexStats opts facts).num_unstaged else "0"),
       (if req.diff then toString (GetIndexStats opts facts).num_conflicted else "0"),
       (if req.diff then toString (GetIndexStats opts facts).num_untracked else "0"),
       (match facts.upstream with | some u => toString (CountAhead opts u) | none => "0"),
       (match facts.upstream with | some u => toString (CountBehind opts u) | none => "0"),
       toString facts.num_stashes,
       facts.tag_name] := by
  unfold ProcessRequest
  rw [hp]
  cases hd : req.diff <;> cases hu : facts.upstream <;> simp [hw, hd, hu]

/-- C1: on every successfully processed request the response record consists of
exactly the 17 protocol fields, in the fixed order id, absolute workdir, head
commit, local branch, upstream branch, upstream remote name, upstream remote
url, repo action, index size, staged, unstaged, conflicted, untracked, ahead,
behind, stashes, tag at head; the rendered record is the fields tab-delimited
and newline-terminated. -/
theorem processRequest_seventeen_fields (opts : Options)
    (openRepo : String → OpenResult) (req : Request) (facts : RepoFacts)
    (hp : openRepo req.dir = .ok facts) (hw : facts.workdir ≠ "") :
    ProcessRequest opts openRepo req =
      [req.id,
       stripTrailingSlash facts.workdir,
       headCommitField facts,
       facts.local_branch,
       (match facts.upstream with | some u => u.branch | none => ""),
       (match facts.upstream with | some u => u.name | none => ""),
       (match facts.upstream with | some u => u.url | none => ""),
       facts.repo_state,
       (if req.diff then toString (GetIndexStats opts facts).index_size else "0"),
       (if req.diff then toString (GetIndexStats opts facts).num_staged else "0"),
       (if req.diff then toString (GetIndexStats opts facts).num_unstaged else "0"),
       (if req.diff then toString (GetIndexStats opts facts).num_conflicted else "0"),
       (if req.diff then toString (GetIndexStats opts facts).num_untracked else "0"),
       (match facts.upstream with | some u => toString (CountAhead opts u) | none => "0"),
       (match facts.upstream with | some u => toString (CountBehind opts u) | none => "0"),
       toString facts.num_stashes,
       facts.tag_name]
    ∧ (ProcessRequest opts openRepo req).length = 17
    ∧ renderResponse (ProcessRequest opts openRepo req) =
        String.intercalate "\t" (ProcessRequest opts openRepo req) ++ "\n" := by
  have h1 := ProcessRequest_ok_eq opts openRepo req facts hp hw
  exact ⟨h1, by rw [h1]; rfl, rfl⟩

/-- C2: when the request's diff flag is 0 and the request otherwise succeeds,
response fields 9 through 13 (index size, staged, unstaged, conflicted,
untracked) are all the string "0". -/
theorem diff_flag_off_zero_fields (opts : Options)
    (openRepo : String → OpenResult) (req : Request) (facts : RepoFacts)
    (hp : openRepo req.dir = .ok facts) (hw : facts.workdir ≠ "")
    (hd : req.diff = false) :
    (ProcessRequest opts openRepo req)[8]? = some "0"
    ∧ (ProcessRequest opts openRepo req)[9]? = some "0"
    ∧ (ProcessRequest opts openRepo req)[10]? = some "0"
    ∧ (ProcessRequest opts openRepo req)[11]? = some "0"
    ∧ (ProcessRequest opts openRepo req)[12]? = some "0" := by
  rw [ProcessRequest_ok_eq opts openRepo req facts hp hw]
  simp [hd]

/-- C3: when the head has no upstream branch, response fields 5 through 7
(upstream branch, upstream remote name, upstream remote url) are empty and
fields 14 and 15 (commits ahead, commits behind) are "0". -/
theorem no_upstream_empty_fields (opts : Options)
    (openRepo : String → OpenResult) (req : Request) (facts : RepoFacts)
    (hp : openRepo req.dir = .ok facts) (hw : facts.workdir ≠ "")
    (hu : facts.upstream = none) :
    (ProcessRequest opts openRepo req)[4]? = some ""
    ∧ (ProcessRequest opts openRepo req)[5]? = some ""
    ∧ (ProcessRequest opts openRepo req)[6]? = some ""
    ∧ (ProcessRequest opts openRepo req)[13]? = some "0"
    ∧ (ProcessRequest opts openRepo req)[14]? = some "0" := by
  rw [ProcessRequest_ok_eq opts openRepo req facts hp hw]
  simp [hu]

/-- Helper: every counter of `GetIndexStats` respects its configured bound. -/
lemma GetIndexStats_le (opts : Options) (facts : RepoFacts) :
    (GetIndexStats opts facts).num_staged ≤ opts.max_num_staged
    ∧ (GetIndexStats opts facts).num_unstaged ≤ opts.max_num_unstaged
    ∧ (GetIndexStats opts facts).num_conflicted ≤ opts.max_num_conflicted
    ∧ (GetIndexStats opts facts).num_untracked ≤ opts.max_num_untracked := by
  unfold GetIndexStats
  split <;> exact ⟨Nat.min_le_right _ _, by simp [Nat.min_le_right]⟩

/-- C4: for every request — the diff flag set or cleared — the reported
staged, unstaged, conflicted and untracked counts are at most their
configured bounds, and the reported ahead and behind counts are at most the
configured maxima. -/
theorem counts_within_bounds (opts : Options)
    (openRepo : String → OpenResult) (req : Request) (facts : RepoFacts)
    (hp : openRepo req.dir = .ok facts) (hw : facts.workdir ≠ "") :
    (∃ a, (ProcessRequest opts openRepo req)[9]? = some (toString a)
        ∧ a ≤ opts.max_num_staged)
    ∧ (∃ a, (ProcessRequest opts openRepo req)[10]? = some (toString a)
        ∧ a ≤ opts.max_num_unstaged)
    ∧ (∃ a, (ProcessRequest opts openRepo req)[11]? = some (toString a)
        ∧ a ≤ opts.max_num_conflicted)
    ∧ (∃ a, (ProcessRequest opts openRepo req)[12]? = some (toString a)
        ∧ a ≤ opts.max_num_untracked)
    ∧ (∃ a, (ProcessRequest opts openRepo req)[13]? = some (toString a)
        ∧ a ≤ opts.max_commits_ahead)
    ∧ (∃ b, (ProcessRequest opts openRepo req)[14]? = some (toString b)
        ∧ b ≤ opts.max_commits_behind) := by
  rw [ProcessRequest_ok_eq opts openRepo req facts hp hw]
  refine ⟨?_, ?_, ?_, ?_, ?_, ?_⟩
  · cases hd : req.diff with
    | false => exact ⟨0, by simp [hd]; decide, Nat.zero_le _⟩
    | true =>
      exact ⟨(GetIndexStats opts facts).num_staged, by simp [hd],
        (GetIndexStats_le opts facts).1⟩
  · cases hd : req.diff with
    | false => exact ⟨0, by simp [hd]; decide, Nat.zero_le _⟩
    | true =>
      exact ⟨(GetIndexStats opts facts).num_unstaged, by simp [hd],
        (GetIndexStats_le opts facts).2.1⟩
  · cases hd : req.diff with
    | false => exact ⟨0, by simp [hd]; decide, Nat.zero_le _⟩
    | true =>
      exact ⟨(GetIndexStats opts facts).num_conflicted, by simp [hd],
        (GetIndexStats_le opts facts).2.2.1⟩
  · cases hd : req.diff with
    | false => exact ⟨0, by simp [hd]; decide, Nat.zero_le _⟩
    | true =>
      exact ⟨(GetIndexStats opts facts).num_untracked, by simp [hd],
        (GetIndexStats_le opts facts).2.2.2⟩
  · cases hu : facts.upstream with
    | none => exact ⟨0, by simp; decide, Nat.zero_le _⟩
    | some u => exact ⟨CountAhead opts u, by simp, Nat.min_le_right _ _⟩
  · cases hu : facts.upstream with
    | none => exact ⟨0, by simp; decide, Nat.zero_le _⟩
    | some u => exact ⟨CountBehind opts u, by simp, Nat.min_le_right _ _⟩

/-- C5: when the working directory is not a repository, or a per-request
failure occurs, the emitted response carries only the request id and the
request loop continues with the next request. -/
theorem failure_emits_only_id (opts : Options)
    (openRepo : String → OpenResult) (req : Request) (rest : List InputLine)
    (h : openRepo req.dir = .notRepo ∨ openRepo req.dir = .failure) :
    ProcessRequest opts openRepo req = [req.id]
    ∧ RequestLoop opts openRepo (.valid req :: rest) =
        [req.id] :: RequestLoop opts openRepo rest := by
  have h1 : ProcessRequest opts openRepo req = [req.id] := by
    unfold ProcessRequest
    rcases h with h | h <;> rw [h] <;> rfl
  exact ⟨h1, by rw [RequestLoop, h1]⟩

/-- C9: a malformed request line produces no response record and the loop
continues with the subsequent lines. -/
theorem invalid_line_skipped (opts : Options) (openRepo : String → OpenResult)
    (rest : List InputLine) :
    RequestLoop opts openRepo (.invalid :: rest) = RequestLoop opts openRepo rest := by
  rw [RequestLoop]

/-- Sample 20-byte object id for concrete instances. -/
def sampleOid : Oid :=
  ⟨List.replicate 20 171, by simp, by
    intro b hb
    rw [List.eq_of_mem_replicate hb]
    omega⟩

/-- Sample tracking-remote data for concrete instances. -/
def sampleUpstream : Upstream :=
  { branch := "main", name := "origin", url := "https://example.com/r.git"
    raw_ahead := 7, raw_behind := 123 }

/-- Sample repository facts for concrete instances. -/
def sampleFacts : RepoFacts :=
  { workdir := "/home/user/project/"
    head_target := some sampleOid
    local_branch := "main"
    upstream := some sampleUpstream
    repo_state := ""
    index_size := 3
    raw_staged := 1
    raw_unstaged := 2
    raw_conflicted := 0
    raw_untracked := 9
    num_stashes := 2
    tag_name := "v1.0" }

/-- Sample configuration for concrete instances. -/
def sampleOpts : Options := ⟨5, 5, 5, 5, 100, 50, 50⟩

/-- Sample request (diff flag set). -/
def sampleReq : Request := ⟨"A", "/home/user/project", true⟩

/-- Sample request with the diff flag cleared. -/
def sampleReqNoDiff : Request := ⟨"B", "/home/user/project", false⟩

/-- Provider that opens every directory onto `sampleFacts`. -/
def sampleOpen : String → OpenResult := fun _ => .ok sampleFacts

/-- Sample repository facts without a tracking remote. -/
def sampleFactsNoUp : RepoFacts := { sampleFacts with upstream := none }

/-- Provider that opens every directory onto `sampleFactsNoUp`. -/
def sampleOpenNoUp : String → OpenResult := fun _ => .ok sampleFactsNoUp

/-- Provider under which no directory is a repository. -/
def sampleOpenNotRepo : String → OpenResult := fun _ => .notRepo

/-- Witness for C1 at a concrete request. -/
theorem processRequest_seventeen_fields_witness :
    sampleOpen sampleReq.dir = .ok sampleFacts
    ∧ sampleFacts.workdir ≠ ""
    ∧ (ProcessRequest sampleOpts sampleOpen sampleReq).length = 17 :=
  ⟨rfl, by decide,
   (processRequest_seventeen_fields sampleOpts sampleOpen sampleReq sampleFacts rfl
     (by decide)).2.1⟩

/-- Witness for C2 at a concrete request with the diff flag cleared. -/
theorem diff_flag_off_zero_fields_witness :
    sampleOpen sampleReqNoDiff.dir = .ok sampleFacts
    ∧ sampleFacts.workdir ≠ ""
    ∧ sampleReqNoDiff.diff = false
    ∧ (ProcessRequest sampleOpts sampleOpen sampleReqNoDiff)[8]? = some "0"
    ∧ (ProcessRequest sampleOpts sampleOpen sampleReqNoDiff)[12]? = some "0" := by
  have h := diff_flag_off_zero_fields sampleOpts sampleOpen sampleReqNoDiff sampleFacts rfl
    (by decide) rfl
  exact ⟨rfl, by decide, rfl, h.1, h.2.2.2.2⟩

/-- Witness for C3 at a concrete repository without a tracking remote. -/
theorem no_upstream_empty_fields_witness :
    sampleOpenNoUp sampleReq.dir = .ok sampleFactsNoUp
    ∧ sampleFactsNoUp.workdir ≠ ""
    ∧ sampleFactsNoUp.upstream = none
    ∧ (ProcessRequest sampleOpts sampleOpenNoUp sampleReq)[4]? = some ""
    ∧ (ProcessRequest sampleOpts sampleOpenNoUp sampleReq)[13]? = some "0" := by
  have h := no_upstream_empty_fields sampleOpts sampleOpenNoUp sampleReq sampleFactsNoUp rfl
    (by decide) rfl
  exact ⟨rfl, by decide, rfl, h.1, h.2.2.2.1⟩

/-- Witness for C4 at a concrete request. -/
theorem counts_within_bounds_witness :
    sampleOpen sampleReq.dir = .ok sampleFacts
    ∧ sampleFacts.workdir ≠ ""
    ∧ (∃ a, (ProcessRequest sampleOpts sampleOpen sampleReq)[9]? = some (toString a)
        ∧ a ≤ sampleOpts.max_num_staged)
    ∧ (∃ a, (ProcessRequest sampleOpts sampleOpen sampleReq)[13]? = some (toString a)
        ∧ a ≤ sampleOpts.max_commits_ahead) := by
  have h := counts_within_bounds sampleOpts sampleOpen sampleReq sampleFacts rfl (by decide)
  exact ⟨rfl, by decide, h.1, h.2.2.2.2.1⟩

/-- Witness for C5 at a concrete non-repository request. -/
theorem failure_emits_only_id_witness :
    (sampleOpenNotRepo sampleReq.dir = .notRepo ∨ sampleOpenNotRepo sampleReq.dir = .failure)
    ∧ ProcessRequest sampleOpts sampleOpenNotRepo sampleReq = [sampleReq.id] :=
  ⟨Or.inl rfl,
   (failure_emits_only_id sampleOpts sampleOpenNotRepo sampleReq [] (Or.inl rfl)).1⟩

/-- Repository facts whose working directory is the filesystem root. -/
def rootFacts : RepoFacts := { sampleFacts with workdir := "/" }

/-- Provider that opens every directory onto `rootFacts`. -/
def rootOpen : String → OpenResult := fun _ => .ok rootFacts

/-- Request aimed at the filesystem root. -/
def rootReq : Request := ⟨"R", "/", true⟩

/-- C6 fails on the code: for a repository whose working directory is the
filesystem root, the raw workdir is "/", the `len > 1` guard of
`src/gitstatus.cc:77` is false, so the emitted `absolute_workdir` field is
"/" — a string that ends with the path separator. -/
theorem workdir_root_keeps_trailing_slash :
    (ProcessRequest sampleOpts rootOpen rootReq)[1]? = some "/"
    ∧ ("/" : String).data.getLast? = some '/' := by
  constructor
  · decide
  · decide

/-- Helper: appending a final element makes it the last. -/
lemma getLast?_append_singleton {α : Type} (l : List α) (a : α) :
    (l ++ [a]).getLast? = some a := by
  induction l with
  | nil => rfl
  | cons b t ih =>
    rw [List.cons_append, List.getLast?_cons, ih]
    rfl

/-- Helper: dropping the last element of `l ++ [a]` yields `l`. -/
lemma dropLast_append_singleton {α : Type} (l : List α) (a : α) :
    (l ++ [a]).dropLast = l := by
  simp

/-- C6 (amended): the raw working directory returned by the provider is a
path followed by exactly one trailing separator; whenever the path part is
non-empty the emitted `absolute_workdir` field does not end with '/', and for
the filesystem root (empty path part) the field is exactly "/". -/
theorem workdir_no_trailing_slash_amended (opts : Options)
    (openRepo : String → OpenResult) (req : Request) (facts : RepoFacts)
    (t : List Char)
    (hp : openRepo req.dir = .ok facts)
    (hwd : facts.workdir = String.mk (t ++ ['/']))
    (ht : t.getLast? ≠ some '/') :
    (ProcessRequest opts openRepo req)[1]? = some (stripTrailingSlash facts.workdir)
    ∧ (t ≠ [] → (stripTrailingSlash facts.workdir).data.getLast? ≠ some '/')
    ∧ (t = [] → stripTrailingSlash facts.workdir = "/") := by
  have hw : facts.workdir ≠ "" := by
    rw [hwd]
    intro h
    have h2 : (t ++ ['/'] : List Char) = [] := congrArg String.data h
    simp at h2
  refine ⟨?_, ?_, ?_⟩
  · rw [ProcessRequest_ok_eq opts openRepo req facts hp hw]
    simp
  · intro htne
    have hlen : facts.workdir.length = t.length + 1 := by
      rw [hwd]
      show (t ++ ['/']).length = t.length + 1
      simp
    have hcond : facts.workdir.length > 1 ∧ facts.workdir.data.getLast? = some '/' := by
      constructor
      · rw [hlen]
        have : t.length ≠ 0 := by simpa using htne
        omega
      · rw [hwd]
        exact getLast?_append_singleton t '/'
    rw [stripTrailingSlash, if_pos hcond, hwd]
    show (t ++ ['/']).dropLast.getLast? ≠ some '/'
    rw [dropLast_append_singleton]
    exact ht
  · intro ht0
    subst ht0
    have hcond : ¬(facts.workdir.length > 1 ∧ facts.workdir.data.getLast? = some '/') := by
      rw [hwd]
      intro h
      have : (String.mk (([] : List Char) ++ ['/'])).length = 1 := rfl
      omega
    rw [stripTrailingSlash, if_neg hcond, hwd]
    rfl

/-- Repository facts with working directory "home/". -/
def homeFacts : RepoFacts := { sampleFacts with workdir := "home/" }

/-- Provider that opens every directory onto `homeFacts`. -/
def homeOpen : String → OpenResult := fun _ => .ok homeFacts

/-- Witness for the amended C6 at a concrete non-root working directory. -/
theorem workdir_no_trailing_slash_amended_witness :
    homeOpen sampleReq.dir = .ok homeFacts
    ∧ homeFacts.workdir = String.mk ("home".data ++ ['/'])
    ∧ "home".data.getLast? ≠ some '/'
    ∧ (ProcessRequest sampleOpts homeOpen sampleReq)[1]? =
        some (stripTrailingSlash homeFacts.workdir)
    ∧ ("home".data ≠ [] →
        (stripTrailingSlash homeFacts.workdir).data.getLast? ≠ some '/') := by
  have h := workdir_no_trailing_slash_amended sampleOpts homeOpen sampleReq homeFacts
    "home".data rfl (by decide) (by decide)
  exact ⟨rfl, by decide, by decide, h.1, h.2.1⟩

/-- A hexadecimal character: a decimal digit or a letter in a-f or A-F. -/
def isHexChar (c : Char) : Bool :=
  c.isDigit || ('a' ≤ c && c ≤ 'f') || ('A' ≤ c && c ≤ 'F')

/-- Helper: every character produced by `hexDigit` is a hexadecimal digit. -/
lemma hexDigit_isHexChar (n : Nat) : isHexChar (hexDigit n) = true := by
  unfold hexDigit
  by_cases h : n < 16
  · interval_cases n <;> decide
  · rw [List.getD_eq_default]
    · decide
    · have h16 : ("0123456789abcdef".data).length = 16 := by decide
      omega

/-- Helper: `hexBytes` produces two characters per byte. -/
lemma hexBytes_length (l : List Nat) : (hexBytes l).length = 2 * l.length := by
  induction l with
  | nil => simp [hexBytes]
  | cons b t ih =>
    rw [hexBytes]
    simp [ih]
    omega

/-- Helper: every character produced by `hexBytes` is a hexadecimal digit. -/
lemma hexBytes_isHexChar (l : List Nat) : ∀ c ∈ hexBytes l, isHexChar c = true := by
  induction l with
  | nil => simp [hexBytes]
  | cons b t ih =>
    intro c hc
    rw [hexBytes] at hc
    simp only [List.mem_cons] at hc
    rcases hc with h | h | h
    · exact h ▸ hexDigit_isHexChar _
    · exact h ▸ hexDigit_isHexChar _
    · exact ih c h

/-- C7: on every processed request the head-commit field is either exactly 40
hexadecimal characters or the empty string, and it is empty exactly when the
head is unborn (no target object id). -/
theorem head_commit_forty_hex_or_empty (opts : Options)
    (openRepo : String → OpenResult) (req : Request) (facts : RepoFacts)
    (hp : openRepo req.dir = .ok facts) (hw : facts.workdir ≠ "") :
    (ProcessRequest opts openRepo req)[2]? = some (headCommitField facts)
    ∧ (((headCommitField facts).data.length = 40
        ∧ ∀ c ∈ (headCommitField facts).data, isHexChar c = true)
       ∨ headCommitField facts = "")
    ∧ (headCommitField facts = "" ↔ facts.head_target = none) := by
  refine ⟨?_, ?_, ?_⟩
  · rw [ProcessRequest_ok_eq opts openRepo req facts hp hw]
    simp
  · cases ho : facts.head_target with
    | none => exact Or.inr (by simp [headCommitField, ho])
    | some oid =>
      have hfield : headCommitField facts = oidToHex oid := by
        simp [headCommitField, ho]
      refine Or.inl ⟨?_, ?_⟩
      · rw [hfield]
        show (hexBytes oid.bytes).length = 40
        rw [hexBytes_length, oid.len_eq]
      · intro c hc
        rw [hfield] at hc
        exact hexBytes_isHexChar oid.bytes c hc
  · cases ho : facts.head_target with
    | none => simp [headCommitField, ho]
    | some oid =>
      simp only [headCommitField, ho]
      constructor
      · intro h
        exfalso
        have h2 : hexBytes oid.bytes = [] := congrArg String.data h
        have h3 := hexBytes_length oid.bytes
        rw [h2, oid.len_eq] at h3
        simp at h3
      · intro h
        exact absurd h (by simp)

/-- Witness for C7 at a concrete request. -/
theorem head_commit_forty_hex_or_empty_witness :
    sampleOpen sampleReq.dir = .ok sampleFacts
    ∧ sampleFacts.workdir ≠ ""
    ∧ (ProcessRequest sampleOpts sampleOpen sampleReq)[2]? =
        some (headCommitField sampleFacts)
    ∧ (headCommitField sampleFacts = "" ↔ sampleFacts.head_target = none) := by
  have h := head_commit_forty_hex_or_empty sampleOpts sampleOpen sampleReq sampleFacts rfl
    (by decide)
  exact ⟨rfl, by decide, h.1, h.2.2⟩

/-- An observable operation of `ProcessRequest`, for stating the order in
which the work of one request happens. -/
inductive Event where
  | tagLookupStart : Event
  | printField : Nat → Event
  | indexPasses : Event
  | tagJoin : Event
  | responseWrite : Event
  deriving DecidableEq

/-- The program-order trace of one successful `ProcessRequest` run
(`src/gitstatus.cc:45-152`): the tag-name future is created at line 64,
before any response field is printed and before the index is touched; the
index-diff passes (`repo->GetIndexStats`, line 112) run when the diff flag is
set; `tag.get()` is awaited at line 149, after every other field has been
printed and immediately before the record is written (`resp.Dump`, line 151).
`printField i` is the `resp.Print` call that supplies protocol field `i`
(1-based; field 1, the id, is installed when the writer is constructed). -/
def requestTrace (diff : Bool) : List Event :=
  [.tagLookupStart,
   .printField 2, .printField 3, .printField 4, .printField 5,
   .printField 6, .printField 7, .printField 8]
  ++ (if diff then [.indexPasses] else [])
  ++ [.printField 9, .printField 10, .printField 11, .printField 12, .printField 13,
      .printField 14, .printField 15, .printField 16,
      .tagJoin, .printField 17, .responseWrite]

/-- C8: in the trace of every request (diff flag set or cleared), the tag
lookup is started first — before the index passes begin — and its result is
joined only after every other response field has been produced, immediately
before the response record is written; the join never precedes the index
work, so awaiting the tag cannot block it. -/
theorem tag_lookup_started_first_joined_last :
    (requestTrace true).indexOf Event.tagLookupStart = 0
    ∧ (requestTrace false).indexOf Event.tagLookupStart = 0
    ∧ (requestTrace true).indexOf Event.tagLookupStart
        < (requestTrace true).indexOf Event.indexPasses
    ∧ (requestTrace true).indexOf Event.indexPasses
        < (requestTrace true).indexOf Event.tagJoin
    ∧ (((List.range 15).map fun k =>
          (requestTrace true).indexOf (Event.printField (k + 2))).all fun j =>
            decide (j < (requestTrace true).indexOf Event.tagJoin)) = true
    ∧ (((List.range 15).map fun k =>
          (requestTrace false).indexOf (Event.printField (k + 2))).all fun j =>
            decide (j < (requestTrace false).indexOf Event.tagJoin)) = true
    ∧ (requestTrace true).indexOf Event.tagJoin
        < (requestTrace true).indexOf (Event.printField 17)
    ∧ (requestTrace false).indexOf Event.tagJoin
        < (requestTrace false).indexOf (Event.printField 17)
    ∧ (requestTrace true).indexOf Event.responseWrite = (requestTrace true).length - 1
    ∧ (requestTrace false).indexOf Event.responseWrite = (requestTrace false).length - 1 := by
  decide

/-- Pointwise update of the buffer: `*p = c`. -/
def writeChar (mem : Nat → Char) (p : Nat) (c : Char) : Nat → Char :=
  fun q => if q = p then c else mem q

/-- Embedding of the digit-emission loop of `StrAppend(char* out, uint64_t n)`
(`src/gitstatus.cc:161-164`): the do-while loop writes `'0' + n % 10` at `p`
(`Nat.digitChar` agrees with `'0' + d` on decimal digits), increments `p`,
divides `n` by 10, and repeats while `n` is non-zero.  The buffer is a total
map from byte positions to characters; the result is the updated buffer and
the final `p`. -/
def writeDigitsRev (mem : Nat → Char) (p n : Nat) : (Nat → Char) × Nat :=
  if n / 10 = 0 then (writeChar mem p (Nat.digitChar (n % 10)), p + 1)
  else writeDigitsRev (writeChar mem p (Nat.digitChar (n % 10))) (p + 1) (n / 10)
termination_by n
decreasing_by omega

/-- The effect of `std::swap(*out++, *--p)` on the buffer: exchange the
characters at `out` and `p - 1`. -/
def swapEnds (mem : Nat → Char) (out p : Nat) : Nat → Char :=
  fun q => if q = out then mem (p - 1) else if q = p - 1 then mem out else mem q

/-- Embedding of the reversal loop of `StrAppend` (`src/gitstatus.cc:166-168`):
while `p - out > 1`, swap the ends of the segment `[out, p)` and move both
pointers inwards. -/
def revRange (mem : Nat → Char) (out p : Nat) : Nat → Char :=
  if out + 1 < p then revRange (swapEnds mem out p) (out + 1) (p - 1)
  else mem
termination_by p - out

/-- Embedding of `StrAppend(char* out, uint64_t n)` (`src/gitstatus.cc:159-170`):
emit the decimal digits of `n` least significant first, remember `res = p`,
reverse the written segment in place, and return the updated buffer together
with `res`. -/
def StrAppend (mem : Nat → Char) (out n : Nat) : (Nat → Char) × Nat :=
  (revRange (writeDigitsRev mem out n).1 out (writeDigitsRev mem out n).2,
   (writeDigitsRev mem out n).2)

/-- The decimal digits of `n` as characters, least significant first. -/
def digitsLE (n : Nat) : List Char :=
  if n / 10 = 0 then [Nat.digitChar (n % 10)]
  else Nat.digitChar (n % 10) :: digitsLE (n / 10)
termination_by n
decreasing_by omega

/-- The decimal representation of `n`: most significant digit first. -/
def decRepr (n : Nat) : List Char := (digitsLE n).reverse

/-- Numeric value of a least-significant-first character digit string. -/
def valLE : List Char → Nat
  | [] => 0
  | c :: t => (c.toNat - 48) + 10 * valLE t

/-- Numeric value of a most-significant-first character digit string. -/
def decVal (L : List Char) : Nat :=
  L.foldl (fun a c => 10 * a + (c.toNat - 48)) 0

lemma writeChar_at (mem : Nat → Char) (p : Nat) (c : Char) :
    writeChar mem p c p = c := by
  simp [writeChar]

lemma writeChar_ne (mem : Nat → Char) (p q : Nat) (c : Char) (h : q ≠ p) :
    writeChar mem p c q = mem q := by
  simp [writeChar, h]

lemma swapEnds_left (mem : Nat → Char) (out p : Nat) :
    swapEnds mem out p out = mem (p - 1) := by
  simp [swapEnds]

lemma swapEnds_right (mem : Nat → Char) (out p : Nat) (h : p - 1 ≠ out) :
    swapEnds mem out p (p - 1) = mem out := by
  simp [swapEnds, h]

lemma swapEnds_other (mem : Nat → Char) (out p q : Nat)
    (h1 : q ≠ out) (h2 : q ≠ p - 1) : swapEnds mem out p q = mem q := by
  simp [swapEnds, h1, h2]

lemma digitsLE_ne_nil (n : Nat) : digitsLE n ≠ [] := by
  unfold digitsLE
  split <;> simp

/-- The digit-emission loop writes the least-significant-first digits of `n`
into `[p, p + len)` and returns `p + len`; all other positions keep their
previous contents. -/
lemma writeDigitsRev_spec (n : Nat) : ∀ (mem : Nat → Char) (p : Nat),
    (writeDigitsRev mem p n).2 = p + (digitsLE n).length
    ∧ ∀ q, (writeDigitsRev mem p n).1 q =
        if p ≤ q ∧ q < p + (digitsLE n).length
        then (digitsLE n).getD (q - p) '?' else mem q := by
  induction n using Nat.strong_induction_on with
  | _ n ih =>
  intro mem p
  by_cases h : n / 10 = 0
  · have hw : writeDigitsRev mem p n =
        (writeChar mem p (Nat.digitChar (n % 10)), p + 1) := by
      unfold writeDigitsRev
      rw [if_pos h]
    have hd : digitsLE n = [Nat.digitChar (n % 10)] := by
      unfold digitsLE
      rw [if_pos h]
    rw [hw, hd]
    refine ⟨rfl, ?_⟩
    intro q
    simp only [List.length_singleton]
    by_cases hq : q = p
    · subst hq
      rw [if_pos ⟨Nat.le_refl q, by omega⟩, writeChar_at]
      simp
    · rw [if_neg (by omega), writeChar_ne mem p q _ hq]
  · have hw : writeDigitsRev mem p n =
        writeDigitsRev (writeChar mem p (Nat.digitChar (n % 10))) (p + 1) (n / 10) := by
      rw [writeDigitsRev, if_neg h]
    have hd : digitsLE n = Nat.digitChar (n % 10) :: digitsLE (n / 10) := by
      rw [digitsLE, if_neg h]
    have IH := ih (n / 10) (by omega) (writeChar mem p (Nat.digitChar (n % 10))) (p + 1)
    rw [hw, hd]
    simp only [List.length_cons]
    refine ⟨by rw [IH.1]; omega, ?_⟩
    intro q
    rw [IH.2 q]
    by_cases hq : p + 1 ≤ q ∧ q < p + 1 + (digitsLE (n / 10)).length
    · rw [if_pos hq, if_pos (show p ≤ q ∧ q < p + ((digitsLE (n / 10)).length + 1) by omega)]
      have hsub : q - p = (q - (p + 1)) + 1 := by omega
      rw [hsub, List.getD_cons_succ]
    · rw [if_neg hq]
      by_cases hqp : q = p
      · subst hqp
        rw [writeChar_at, if_pos (show q ≤ q ∧ q < q + ((digitsLE (n / 10)).length + 1) by omega)]
        simp
      · rw [writeChar_ne mem p q _ hqp, if_neg (by omega)]

/-- The reversal loop reverses the segment `[out, p)` pointwise and leaves
everything else unchanged. -/
lemma revRange_spec (gap : Nat) : ∀ (mem : Nat → Char) (out p : Nat), p - out = gap →
    ∀ q, revRange mem out p q =
      if out ≤ q ∧ q < p then mem (out + p - 1 - q) else mem q := by
  induction gap using Nat.strong_induction_on with
  | _ gap ih =>
  intro mem out p hg q
  by_cases h : out + 1 < p
  · have hrw : revRange mem out p = revRange (swapEnds mem out p) (out + 1) (p - 1) := by
      rw [revRange, if_pos h]
    rw [hrw]
    have hr := ih ((p - 1) - (out + 1)) (by omega) (swapEnds mem out p) (out + 1) (p - 1)
      rfl q
    rw [hr]
    by_cases hq : out ≤ q ∧ q < p
    · by_cases hmid : out + 1 ≤ q ∧ q < p - 1
      · rw [if_pos hmid, if_pos hq]
        have hidx : out + 1 + (p - 1) - 1 - q = out + p - 1 - q := by omega
        rw [hidx, swapEnds_other mem out p _ (by omega) (by omega)]
      · rw [if_neg hmid, if_pos hq]
        rcases Nat.eq_or_lt_of_le hq.1 with hq1 | hq1
        · rw [← hq1, swapEnds_left]
          congr 1
          omega
        · have hq2 : q = p - 1 := by omega
          subst hq2
          rw [swapEnds_right mem out p (by omega)]
          congr 1
          omega
    · rw [if_neg hq, if_neg (by omega)]
      exact swapEnds_other mem out p q (by omega) (by omega)
  · have hrw : revRange mem out p = mem := by
      unfold revRange
      rw [if_neg h]
    rw [hrw]
    by_cases hq : out ≤ q ∧ q < p
    · rw [if_pos hq]
      congr 1
      omega
    · rw [if_neg hq]

lemma digitChar_toNat (d : Nat) (h : d < 10) : (Nat.digitChar d).toNat = 48 + d := by
  interval_cases d <;> rfl

lemma digitChar_isDigit (d : Nat) (h : d < 10) : (Nat.digitChar d).isDigit = true := by
  interval_cases d <;> rfl

lemma digitChar_ne_zero (d : Nat) (h1 : 1 ≤ d) (h2 : d < 10) :
    Nat.digitChar d ≠ '0' := by
  interval_cases d <;> decide

/-- `digitsLE` is a correct little-endian decimal expansion. -/
lemma valLE_digitsLE (n : Nat) : valLE (digitsLE n) = n := by
  induction n using Nat.strong_induction_on with
  | _ n ih =>
  by_cases h : n / 10 = 0
  · unfold digitsLE
    rw [if_pos h]
    simp only [valLE]
    rw [digitChar_toNat (n % 10) (by omega)]
    omega
  · unfold digitsLE
    rw [if_neg h]
    simp only [valLE]
    rw [ih (n / 10) (by omega), digitChar_toNat (n % 10) (by omega)]
    omega

lemma decVal_reverse (L : List Char) : decVal L.reverse = valLE L := by
  induction L with
  | nil => rfl
  | cons c t ih =>
    show List.foldl (fun a c => 10 * a + (c.toNat - 48)) 0 (c :: t).reverse = valLE (c :: t)
    rw [List.reverse_cons, List.foldl_append]
    simp only [List.foldl_cons, List.foldl_nil]
    have : List.foldl (fun a c => 10 * a + (c.toNat - 48)) 0 t.reverse = valLE t := ih
    rw [this]
    simp only [valLE]
    omega

lemma digitsLE_all_digits (n : Nat) : ∀ c ∈ digitsLE n, c.isDigit = true := by
  induction n using Nat.strong_induction_on with
  | _ n ih =>
  by_cases h : n / 10 = 0
  · unfold digitsLE
    rw [if_pos h]
    intro c hc
    simp only [List.mem_singleton] at hc
    exact hc ▸ digitChar_isDigit _ (by omega)
  · unfold digitsLE
    rw [if_neg h]
    intro c hc
    simp only [List.mem_cons] at hc
    rcases hc with hc | hc
    · exact hc ▸ digitChar_isDigit _ (by omega)
    · exact ih (n / 10) (by omega) c hc

lemma getLast?_cons_of_ne_nil {α : Type} (a : α) (l : List α) (h : l ≠ []) :
    (a :: l).getLast? = l.getLast? := by
  cases l with
  | nil => exact absurd rfl h
  | cons b t => rfl

/-- The most significant digit of a positive number is not '0'. -/
lemma digitsLE_getLast_ne_zero (n : Nat) (hn : 0 < n) :
    (digitsLE n).getLast? ≠ some '0' := by
  induction n using Nat.strong_induction_on with
  | _ n ih =>
  by_cases h : n / 10 = 0
  · unfold digitsLE
    rw [if_pos h]
    have : n % 10 = n := by omega
    rw [this]
    simp only [List.getLast?_singleton]
    intro hc
    exact digitChar_ne_zero n hn (by omega) (Option.some.inj hc)
  · unfold digitsLE
    rw [if_neg h]
    rw [getLast?_cons_of_ne_nil _ _ (digitsLE_ne_nil (n / 10))]
    exact ih (n / 10) (by omega) (by omega)

lemma getD_reverse {α : Type} (l : List α) (i : Nat) (h : i < l.length) (d : α) :
    l.reverse.getD i d = l.getD (l.length - 1 - i) d := by
  have h1 : i < l.reverse.length := by simpa using h
  have h2 : l.length - 1 - i < l.length := by omega
  rw [List.getD_eq_getElem l.reverse d h1, List.getD_eq_getElem l d h2]
  rw [List.getElem_reverse]

/-- C10: for every `uint64_t` value `n`, `StrAppend(out, n)` writes into the
buffer exactly the decimal representation of `n` — most significant digit
first, no leading zeros, a single '0' when `n = 0` — returns the position one
past the last digit written, and leaves every other byte of the buffer
unmodified. -/
theorem StrAppend_writes_decimal (mem : Nat → Char) (out n : Nat)
    (h : n < 2 ^ 64) :
    (StrAppend mem out n).2 = out + (decRepr n).length
    ∧ (∀ q, out ≤ q → q < out + (decRepr n).length →
        (StrAppend mem out n).1 q = (decRepr n).getD (q - out) '?')
    ∧ (∀ q, q < out ∨ out + (decRepr n).length ≤ q →
        (StrAppend mem out n).1 q = mem q)
    ∧ decVal (decRepr n) = n
    ∧ (∀ c ∈ decRepr n, c.isDigit = true)
    ∧ (n = 0 → decRepr n = ['0'])
    ∧ (0 < n → (decRepr n).head? ≠ some '0') := by
  have W := writeDigitsRev_spec n mem out
  have hlen : (decRepr n).length = (digitsLE n).length := by
    simp [decRepr]
  have hsnd : (StrAppend mem out n).2 = out + (decRepr n).length := by
    show (writeDigitsRev mem out n).2 = out + (decRepr n).length
    rw [W.1, hlen]
  have R := revRange_spec ((writeDigitsRev mem out n).2 - out)
    (writeDigitsRev mem out n).1 out (writeDigitsRev mem out n).2 rfl
  refine ⟨hsnd, ?_, ?_, ?_, ?_, ?_, ?_⟩
  · intro q hq1 hq2
    show revRange (writeDigitsRev mem out n).1 out (writeDigitsRev mem out n).2 q =
      (decRepr n).getD (q - out) '?'
    rw [R q, if_pos ⟨hq1, by rw [W.1]; omega⟩]
    rw [W.2, if_pos (show out ≤ out + (writeDigitsRev mem out n).2 - 1 - q ∧
        out + (writeDigitsRev mem out n).2 - 1 - q < out + (digitsLE n).length by
      rw [W.1]
      constructor <;> omega)]
    rw [decRepr, getD_reverse _ _ (by omega) '?']
    congr 1
    rw [W.1]
    omega
  · intro q hq
    show revRange (writeDigitsRev mem out n).1 out (writeDigitsRev mem out n).2 q = mem q
    rw [R q, if_neg (by rw [W.1]; omega)]
    rw [W.2, if_neg (by omega)]
  · rw [decRepr, decVal_reverse]
    exact valLE_digitsLE n
  · intro c hc
    rw [decRepr, List.mem_reverse] at hc
    exact digitsLE_all_digits n c hc
  · intro h0
    subst h0
    have : digitsLE 0 = ['0'] := by
      unfold digitsLE
      norm_num
      decide
    rw [decRepr, this]
    rfl
  · intro hn
    rw [decRepr, List.head?_reverse]
    exact digitsLE_getLast_ne_zero n hn

/-- Witness for C10 at a concrete value and buffer. -/
theorem StrAppend_writes_decimal_witness :
    (1234567890 : Nat) < 2 ^ 64
    ∧ (StrAppend (fun _ => ' ') 3 1234567890).2 = 3 + (decRepr 1234567890).length
    ∧ decVal (decRepr 1234567890) = 1234567890
    ∧ (0 < 1234567890 → (decRepr 1234567890).head? ≠ some '0') := by
  have h := StrAppend_writes_decimal (fun _ => ' ') 3 1234567890 (by decide)
  exact ⟨by decide, h.1, h.2.2.2.1, h.2.2.2.2.2.2⟩

end Gitstatus
